import Mathlib

/-!
Shallow embedding of the prestressed/reinforced concrete beam strength
calculator (source: `beamCalculations.js`, the full module with all five
section variants).  JS floating-point numbers are modelled as real numbers;
`Math.pow` with a real exponent is `Real.rpow`, `Math.pow` with the literal
exponents 2/3/4 is monoid power, `Math.sqrt` is `Real.sqrt`, `Math.acos` is
`Real.arccos`, `Math.PI` is `Real.pi`.  Every function keeps the source's
name and argument order.
-/

namespace BeamCalc

noncomputable section

/-- Steel material parameters (`{ Es, fpu, fpy, Q, R, K, stressCap }` in the
source).  The source reads `steel.stressCap ?? steel.fpu`; every catalog
entry (`steelPresets`) sets `stressCap`, so the embedding carries it as a
plain field. -/
structure SteelType where
  Es : ℝ
  fpu : ℝ
  fpy : ℝ
  Q : ℝ
  R : ℝ
  K : ℝ
  stressCap : ℝ

/-- One steel layer: `{ area, depth, fse, steel }`. -/
structure SteelLayer where
  area : ℝ
  depth : ℝ
  fse : ℝ
  steel : SteelType

/-- The five section kinds dispatched on the `sectionType` string field. -/
inductive SectionType
  | rectangular
  | tbeam
  | sandwich
  | doubletee
  | hollowcore
deriving DecidableEq

/-- A cross-section.  The source is duck-typed: one object carries whichever
fields its `sectionType` needs; the embedding carries all of them (unused
ones are irrelevant to each dispatch branch, exactly as in the source). -/
structure Section where
  sectionType : SectionType
  bf : ℝ
  bw : ℝ
  hf : ℝ
  h : ℝ
  fc : ℝ
  bt : ℝ
  ht : ℝ
  hg : ℝ
  bb : ℝ
  numStems : ℕ
  stemWidth : ℝ
  numVoids : ℕ
  voidDiameter : ℝ
  voidCenterDepth : ℝ

/-- Whitney stress-block depth factor β₁ per ACI 318-19 §22.2.2.4.3. -/
def beta1 (fc : ℝ) : ℝ :=
  if fc ≤ 4 then 0.85
  else if fc ≥ 8 then 0.65
  else 0.85 - 0.05 * (fc - 4)

/-- Strength reduction factor φ per ACI 318-19 §21.2. -/
def phiFactor (epsilonT epsilonTy : ℝ) : ℝ :=
  if epsilonT ≥ epsilonTy + 0.003 then 0.90
  else if epsilonT ≤ epsilonTy then 0.65
  else 0.65 + 0.25 * (epsilonT - epsilonTy) / 0.003

/-- The capped stress magnitude computed by `powerFormulaStress` from
`absEps = |epsilonS|` (the source's `EsEps`/`ratio`/`ratioR`/`bracket`/`fs`/
`fsCapped` chain, lines computing `fsCapped`); `^` with a real exponent is
`Real.rpow`, i.e. `Math.pow`. -/
def powerFormulaMag (steel : SteelType) (absEps : ℝ) : ℝ :=
  let EsEps := steel.Es * absEps
  let ratioR := (EsEps / (steel.K * steel.fpy)) ^ steel.R
  let bracket := (1 + ratioR) ^ (1 / steel.R)
  let fs := EsEps * (steel.Q + (1 - steel.Q) / bracket)
  min fs steel.stressCap

/-- Devalapura-Tadros / PCI power formula for steel stress
(`powerFormulaStress(epsilonS, steel)` in the source): zero inside the
`|epsilonS| < 1e-12` guard, otherwise the capped magnitude with the sign of
the strain (`epsilonS >= 0 ? fsCapped : -fsCapped`). -/
def powerFormulaStress (epsilonS : ℝ) (steel : SteelType) : ℝ :=
  if |epsilonS| < 1e-12 then 0
  else if epsilonS ≥ 0 then powerFormulaMag steel |epsilonS|
  else -(powerFormulaMag steel |epsilonS|)

/-- Stress-strain curve sample points (`generateStressStrainCurve`); the
source's default `numPoints` is 200. -/
def generateStressStrainCurve (steel : SteelType) (numPoints : ℕ) : List (ℝ × ℝ) :=
  let maxStrain := steel.fpu / steel.Es * 3
  (List.range (numPoints + 1)).map fun (i : ℕ) =>
    let eps := ((i : ℕ) : ℝ) / (numPoints : ℝ) * maxStrain
    (eps, powerFormulaStress eps steel)

/-- Total steel strain at a layer by strain compatibility (`steelStrain`). -/
def steelStrain (di c fse Es : ℝ) : ℝ :=
  let ecu := 0.003
  let eso := fse / Es
  ecu * (di / c - 1) + eso

/-- Decompression strain for prestressed layers (`decompressionStrain`). -/
def decompressionStrain (fse Es : ℝ) : ℝ :=
  fse / Es

/-- Void area intersected by compression depth `a` in a hollow-core section.
The source loops over `numVoids` voids; every iteration computes the same
geometry (all voids share `voidDiameter` and `voidCenterDepth`), so the loop
total is `numVoids` times the per-void contribution.  This helper is the
body shared verbatim by `concreteCompression` and `compressionCentroid` in
the source (both contain the identical loop). -/
def hcVoidArea (s : Section) (a : ℝ) : ℝ :=
  let voidTop := s.voidCenterDepth - s.voidDiameter / 2
  let voidBottom := s.voidCenterDepth + s.voidDiameter / 2
  if a > voidTop ∧ s.voidCenterDepth > 0 then
    (s.numVoids : ℝ) *
      (if a ≤ voidTop then 0
       else if a ≥ voidBottom then Real.pi * (s.voidDiameter / 2) ^ 2
       else
         let r := s.voidDiameter / 2
         let hseg := a - voidTop
         let theta := 2 * Real.arccos ((r - hseg) / r)
         r * r / 2 * (theta - Real.sin theta))
  else 0

/-- First moment (about the top fiber) of the void area intersected by
compression depth `a` in a hollow-core section, from the `voidMoment`
accumulator of the source's `compressionCentroid`. -/
def hcVoidMoment (s : Section) (a : ℝ) : ℝ :=
  let voidTop := s.voidCenterDepth - s.voidDiameter / 2
  let voidBottom := s.voidCenterDepth + s.voidDiameter / 2
  if a > voidTop ∧ s.voidCenterDepth > 0 then
    (s.numVoids : ℝ) *
      (if a ≤ voidTop then 0
       else if a ≥ voidBottom then Real.pi * (s.voidDiameter / 2) ^ 2 * s.voidCenterDepth
       else
         let r := s.voidDiameter / 2
         let hseg := a - voidTop
         let theta := 2 * Real.arccos ((r - hseg) / r)
         let segmentArea := r * r / 2 * (theta - Real.sin theta)
         let yBar := 4 * r * Real.sin (theta / 2) ^ 3 / (3 * (theta - Real.sin theta))
         segmentArea * (voidTop + yBar))
  else 0

/-- Concrete compression force (`concreteCompression(fc, a, bf, bw, hf, section)`).
The source's if-chain tests `sandwich`, `doubletee`, `hollowcore` and falls
through to the T-beam/rectangular formula otherwise. -/
def concreteCompression (fc a bf bw hf : ℝ) (s : Section) : ℝ :=
  match s.sectionType with
  | .sandwich =>
    if a ≤ s.ht then 0.85 * fc * a * s.bt
    else if a ≤ s.ht + s.hg then 0.85 * fc * s.ht * s.bt
    else 0.85 * fc * (s.ht * s.bt + (a - s.ht - s.hg) * s.bb)
  | .doubletee =>
    if a ≤ hf then 0.85 * fc * a * bf
    else 0.85 * fc * (hf * bf + (a - hf) * (s.numStems : ℝ) * s.stemWidth)
  | .hollowcore =>
    let grossArea := bf * a
    let netArea := grossArea - hcVoidArea s a
    0.85 * fc * netArea
  | _ =>
    if a ≤ hf then 0.85 * fc * a * bf
    else 0.85 * fc * (hf * bf + (a - hf) * bw)

/-- Centroid of the compression block from the extreme compression fiber
(`compressionCentroid(a, bf, bw, hf, section)`). -/
def compressionCentroid (a bf bw hf : ℝ) (s : Section) : ℝ :=
  match s.sectionType with
  | .sandwich =>
    if a ≤ s.ht then a / 2
    else if a ≤ s.ht + s.hg then s.ht / 2
    else
      let topArea := s.ht * s.bt
      let botArea := (a - s.ht - s.hg) * s.bb
      let totalArea := topArea + botArea
      (topArea * s.ht / 2 + botArea * (s.ht + s.hg + (a - s.ht - s.hg) / 2)) / totalArea
  | .doubletee =>
    if a ≤ hf then a / 2
    else
      let flangeArea := hf * bf
      let stemArea := (a - hf) * (s.numStems : ℝ) * s.stemWidth
      let totalArea := flangeArea + stemArea
      (flangeArea * hf / 2 + stemArea * (hf + (a - hf) / 2)) / totalArea
  | .hollowcore =>
    let grossArea := bf * a
    let grossCentroid := a / 2
    let voidArea := hcVoidArea s a
    let voidMoment := hcVoidMoment s a
    let netArea := grossArea - voidArea
    if netArea ≤ 0 then grossCentroid
    else (grossArea * grossCentroid - voidMoment) / netArea
  | _ =>
    if a ≤ hf then a / 2
    else
      let flangeArea := hf * bf
      let webArea := (a - hf) * bw
      let totalArea := flangeArea + webArea
      (flangeArea * hf / 2 + webArea * (hf + (a - hf) / 2)) / totalArea

/-- Result of the bisection loop in `analyzeBeam`: the final `c`, the number
of loop-body executions, and (instrumentation for the proofs) the list of
trial midpoints in the order they were evaluated. -/
structure SolveOut where
  c : ℝ
  iters : ℕ
  trials : List ℝ

/-- The bisection loop of `analyzeBeam`, one constructor case per remaining
iteration budget.  Faithful to the source: midpoint, residual, break when
`|residual| < 1e-6`, shrink `cHigh` when `residual > 0`, else raise `cLow`;
the third `ℝ` argument is the current value of the mutable `c` (returned
unchanged if the budget is exhausted, i.e. after the `for` loop ends). -/
def bisectLoop (f : ℝ → ℝ) : ℕ → ℝ → ℝ → ℝ → SolveOut
  | 0, _, _, c0 => ⟨c0, 0, []⟩
  | fuel + 1, cLow, cHigh, _ =>
    let c := (cLow + cHigh) / 2
    let residual := f c
    if |residual| < 1e-6 then ⟨c, 1, [c]⟩
    else if residual > 0 then
      let out := bisectLoop f fuel cLow c c
      ⟨out.c, out.iters + 1, c :: out.trials⟩
    else
      let out := bisectLoop f fuel c cHigh c
      ⟨out.c, out.iters + 1, c :: out.trials⟩

/-- Total steel force `Σ fs_i · area_i` at trial depth `c` (the
`totalSteelForce` accumulator of `analyzeBeam`). -/
def steelForceTotal (layers : List SteelLayer) (c : ℝ) : ℝ :=
  (layers.map fun layer =>
    powerFormulaStress (steelStrain layer.depth c layer.fse layer.steel.Es) layer.steel
      * layer.area).sum

/-- The equilibrium residual `Cc − totalSteelForce` evaluated at trial
neutral-axis depth `c` inside `analyzeBeam`'s loop. -/
def residualF (s : Section) (layers : List SteelLayer) (c : ℝ) : ℝ :=
  concreteCompression s.fc (beta1 s.fc * c) s.bf s.bw s.hf s - steelForceTotal layers c

/-- The solver call of `analyzeBeam`: bisection over `[0.01, h]` starting
from `c = h / 2`, `maxIter = 500`. -/
def solveC (s : Section) (layers : List SteelLayer) : SolveOut :=
  bisectLoop (residualF s layers) 500 0.01 s.h (s.h / 2)

/-- Gross section properties record `{ A, yCg, Ig, yb, Sb }`. -/
structure GrossProps where
  A : ℝ
  yCg : ℝ
  Ig : ℝ
  yb : ℝ
  Sb : ℝ

/-- `grossSectionProperties(section)`.  The source's `switch` covers the five
section kinds; its `default` branch is unreachable for the closed tag type. -/
def grossSectionProperties (s : Section) : GrossProps :=
  let h := s.h
  let core : ℝ × ℝ × ℝ :=
    match s.sectionType with
    | .rectangular =>
      let b := s.bw
      (b * h, h / 2, b * h ^ 3 / 12)
    | .tbeam =>
      let hw := h - s.hf
      let flangeA := s.bf * s.hf
      let webA := s.bw * hw
      let A := flangeA + webA
      let yCg := (flangeA * s.hf / 2 + webA * (s.hf + hw / 2)) / A
      let flangeI := s.bf * s.hf ^ 3 / 12 + flangeA * (yCg - s.hf / 2) ^ 2
      let webI := s.bw * hw ^ 3 / 12 + webA * (s.hf + hw / 2 - yCg) ^ 2
      (A, yCg, flangeI + webI)
    | .sandwich =>
      let hb2 := h - s.ht - s.hg
      let topA := s.bt * s.ht
      let botA := s.bb * hb2
      let A := topA + botA
      let yCg := (topA * s.ht / 2 + botA * (s.ht + s.hg + hb2 / 2)) / A
      let topI := s.bt * s.ht ^ 3 / 12 + topA * (yCg - s.ht / 2) ^ 2
      let botI := s.bb * hb2 ^ 3 / 12 + botA * (s.ht + s.hg + hb2 / 2 - yCg) ^ 2
      (A, yCg, topI + botI)
    | .doubletee =>
      let hs := h - s.hf
      let flangeA := s.bf * s.hf
      let stemA := (s.numStems : ℝ) * s.stemWidth * hs
      let A := flangeA + stemA
      let yCg := (flangeA * s.hf / 2 + stemA * (s.hf + hs / 2)) / A
      let flangeI := s.bf * s.hf ^ 3 / 12 + flangeA * (yCg - s.hf / 2) ^ 2
      let stemI := (s.numStems : ℝ) * s.stemWidth * hs ^ 3 / 12
        + stemA * (s.hf + hs / 2 - yCg) ^ 2
      (A, yCg, flangeI + stemI)
    | .hollowcore =>
      let r := s.voidDiameter / 2
      let voidA := (s.numVoids : ℝ) * Real.pi * r * r
      let A := s.bf * h - voidA
      let grossMoment := s.bf * h * (h / 2)
      let voidMoment := voidA * s.voidCenterDepth
      let yCg := (grossMoment - voidMoment) / A
      let grossI := s.bf * h ^ 3 / 12 + s.bf * h * (h / 2 - yCg) ^ 2
      let voidIself := (s.numVoids : ℝ) * (Real.pi * r ^ 4) / 4
      let voidIpar := voidA * (s.voidCenterDepth - yCg) ^ 2
      (A, yCg, grossI - voidIself - voidIpar)
  let A := core.1
  let yCg := core.2.1
  let Ig := core.2.2
  let yb := h - yCg
  ⟨A, yCg, Ig, yb, Ig / yb⟩

/-- Cracking/prestress record returned by `prestressAndCracking`. -/
structure CrackingResult where
  P : ℝ
  fpc : ℝ
  e : ℝ
  yps : ℝ
  fr : ℝ
  Mcr : ℝ
  McrFt : ℝ
  threshold : ℝ
  thresholdFt : ℝ
  passesMinStrength : Prop
  sectionProps : GrossProps

/-- The `P` and `PeMoment` accumulators of `prestressAndCracking`: layers
with `fse > 0` contribute `fse·area` and `fse·area·depth`. -/
def prestressSums (layers : List SteelLayer) : ℝ × ℝ :=
  layers.foldl
    (fun acc layer =>
      if layer.fse > 0 then
        (acc.1 + layer.fse * layer.area, acc.2 + layer.fse * layer.area * layer.depth)
      else acc)
    (0, 0)

/-- `prestressAndCracking(section, steelLayers, phiMn)`. -/
def prestressAndCracking (s : Section) (layers : List SteelLayer) (phiMn : ℝ) :
    CrackingResult :=
  let sectionProps := grossSectionProperties s
  let A := sectionProps.A
  let yCg := sectionProps.yCg
  let Sb := sectionProps.Sb
  let P := (prestressSums layers).1
  let PeMoment := (prestressSums layers).2
  let yps := if P > 0 then PeMoment / P else yCg
  let e := yps - yCg
  let fpc := P / A
  let fr := 7.5 * Real.sqrt (s.fc * 1000) / 1000
  let Mcr := Sb * (fr + P / A + P * e / Sb)
  let McrFt := Mcr / 12
  let threshold := 1.2 * Mcr
  let thresholdFt := threshold / 12
  ⟨P, fpc, e, yps, fr, Mcr, McrFt, threshold, thresholdFt, phiMn ≥ threshold, sectionProps⟩

/-- A steel layer with its computed `strain`, `stress`, `force` (the source
spreads the layer object and adds the three fields). -/
structure LayerResult where
  layer : SteelLayer
  strain : ℝ
  stress : ℝ
  force : ℝ

/-- The `maxDepth` / `extremeTensionLayer` scan of `analyzeBeam`. -/
def extremeScan (lrs : List LayerResult) : ℝ × Option LayerResult :=
  lrs.foldl
    (fun acc lr => if lr.layer.depth > acc.1 then (lr.layer.depth, some lr) else acc)
    (0, none)

/-- The record returned by `analyzeBeam`.  The source's `section` field is a
Lean keyword, hence `sec`.  `ductile`, `transition` and the cracking
`passesMinStrength` are boolean comparisons on reals in the source, carried
as `Prop`s. -/
structure AnalysisResult where
  c : ℝ
  a : ℝ
  beta1 : ℝ
  Cc : ℝ
  ccCentroid : ℝ
  layerResults : List LayerResult
  Mn : ℝ
  MnFt : ℝ
  phi : ℝ
  phiMn : ℝ
  phiMnFt : ℝ
  epsilonT : ℝ
  cOverD : ℝ
  fc : ℝ
  sec : Section
  ductile : Prop
  transition : Prop
  cracking : CrackingResult

/-- Main analysis `analyzeBeam(section, steelLayers)`. -/
def analyzeBeam (s : Section) (steelLayers : List SteelLayer) : AnalysisResult :=
  let b1 := beta1 s.fc
  let so := solveC s steelLayers
  let c := so.c
  let a := b1 * c
  let Cc := concreteCompression s.fc a s.bf s.bw s.hf s
  let ccCentroid := compressionCentroid a s.bf s.bw s.hf s
  let layerResults := steelLayers.map fun layer =>
    let eps := steelStrain layer.depth c layer.fse layer.steel.Es
    let fs := powerFormulaStress eps layer.steel
    (⟨layer, eps, fs, fs * layer.area⟩ : LayerResult)
  let Mn := (layerResults.map fun lr => lr.force * lr.layer.depth).sum - Cc * ccCentroid
  let ext := extremeScan layerResults
  let maxDepth := ext.1
  let epsilonT := match ext.2 with
    | some lr => lr.strain
    | none => 0
  let epsilonTy := match ext.2 with
    | some lr => lr.layer.steel.fpy / lr.layer.steel.Es
    | none => 0.002
  let phi := phiFactor epsilonT epsilonTy
  let phiMn := phi * Mn
  let dt := if maxDepth = 0 then 1 else maxDepth
  let cOverD := c / dt
  let cracking := prestressAndCracking s steelLayers phiMn
  ⟨c, a, b1, Cc, ccCentroid, layerResults, Mn, Mn / 12, phi, phiMn, phiMn / 12,
    epsilonT, cOverD, s.fc, s,
    epsilonT ≥ epsilonTy + 0.003,
    epsilonT ≥ epsilonTy ∧ epsilonT < epsilonTy + 0.003,
    cracking⟩

/-- Rectangular section record as the input form builds it: it submits
`bf := bw` and `hf := h` for rectangular sections. -/
def mkRectSection (bw h fc : ℝ) : Section :=
  ⟨.rectangular, bw, bw, h, h, fc, 0, 0, 0, 0, 2, 0, 0, 0, 0⟩

/-- T-beam section record (unused auxiliary fields zeroed). -/
def mkTbeamSection (bf bw hf h fc : ℝ) : Section :=
  ⟨.tbeam, bf, bw, hf, h, fc, 0, 0, 0, 0, 2, 0, 0, 0, 0⟩

/-- Hollow-core section record as the input form builds it (`bw := bf`,
`hf := h`). -/
def mkHollowcoreSection (bf h fc : ℝ) (numVoids : ℕ)
    (voidDiameter voidCenterDepth : ℝ) : Section :=
  ⟨.hollowcore, bf, bf, h, h, fc, 0, 0, 0, 0, 2, 0, numVoids, voidDiameter,
    voidCenterDepth⟩

/-- The Grade 60 catalog entry (`steelPresets[0]`), used as a concrete
input in witnesses. -/
def steelGr60 : SteelType :=
  ⟨29000, 90, 60, 0, 100, 1.096, 60⟩

/-- The Gr. 270 strand catalog entry (`steelPresets[4]`). -/
def steelGr270 : SteelType :=
  ⟨28800, 270, 243, 0.031, 7.36, 1.043, 270⟩

/-! ## Helper lemmas about the power formula -/

theorem powerFormulaMag_le_cap (steel : SteelType) (x : ℝ) :
    powerFormulaMag steel x ≤ steel.stressCap := by
  simp only [powerFormulaMag]
  exact min_le_right _ _

theorem bracket_pos (steel : SteelType) (hkf : 0 < steel.K * steel.fpy)
    {u : ℝ} (hu : 0 < u) :
    (0:ℝ) < (1 + (u / (steel.K * steel.fpy)) ^ steel.R) ^ (1 / steel.R) := by
  have h1 : (0:ℝ) < (u / (steel.K * steel.fpy)) ^ steel.R :=
    Real.rpow_pos_of_pos (div_pos hu hkf) _
  exact Real.rpow_pos_of_pos (by linarith) _

theorem powerFormulaMag_nonneg (steel : SteelType) (hEs : 0 < steel.Es)
    (hQ0 : 0 ≤ steel.Q) (hQ1 : steel.Q < 1) (hcap : 0 ≤ steel.stressCap)
    (hkf : 0 < steel.K * steel.fpy) {x : ℝ} (hx : 0 < x) :
    0 ≤ powerFormulaMag steel x := by
  simp only [powerFormulaMag]
  refine le_min ?_ hcap
  have hu : 0 < steel.Es * x := mul_pos hEs hx
  have hB := bracket_pos steel hkf hu
  have hdiv : 0 ≤ (1 - steel.Q) / (1 + (steel.Es * x / (steel.K * steel.fpy)) ^ steel.R) ^ (1 / steel.R) :=
    div_nonneg (by linarith) hB.le
  nlinarith

theorem powerCurve_key (R t : ℝ) (hR : 0 < R) (ht : 0 < t) :
    t / (1 + t ^ R) ^ (1 / R) = (t ^ R / (1 + t ^ R)) ^ (1 / R) := by
  have htR : (0:ℝ) < t ^ R := Real.rpow_pos_of_pos ht R
  have hden : (0:ℝ) < 1 + t ^ R := by linarith
  rw [Real.div_rpow htR.le hden.le, ← Real.rpow_mul ht.le, mul_one_div,
    div_self hR.ne', Real.rpow_one]

theorem powerCurve_mono (R : ℝ) (hR : 0 < R) {t1 t2 : ℝ} (ht1 : 0 < t1)
    (h12 : t1 ≤ t2) :
    t1 / (1 + t1 ^ R) ^ (1 / R) ≤ t2 / (1 + t2 ^ R) ^ (1 / R) := by
  have ht2 : 0 < t2 := lt_of_lt_of_le ht1 h12
  rw [powerCurve_key R t1 hR ht1, powerCurve_key R t2 hR ht2]
  have hA : t1 ^ R ≤ t2 ^ R := Real.rpow_le_rpow ht1.le h12 hR.le
  have h1p : (0:ℝ) < 1 + t1 ^ R := by
    nlinarith [Real.rpow_pos_of_pos ht1 R]
  have h2p : (0:ℝ) < 1 + t2 ^ R := by
    nlinarith [Real.rpow_pos_of_pos ht2 R]
  refine Real.rpow_le_rpow
    (div_nonneg (Real.rpow_pos_of_pos ht1 R).le h1p.le) ?_
    (div_nonneg zero_le_one hR.le)
  rw [div_le_div_iff₀ h1p h2p]
  nlinarith

theorem powerFormulaMag_mono (steel : SteelType) (hEs : 0 < steel.Es)
    (hR : 0 < steel.R) (hQ0 : 0 ≤ steel.Q) (hQ1 : steel.Q < 1)
    (hkf : 0 < steel.K * steel.fpy) {x1 x2 : ℝ} (hx1 : 0 < x1) (h12 : x1 ≤ x2) :
    powerFormulaMag steel x1 ≤ powerFormulaMag steel x2 := by
  simp only [powerFormulaMag]
  refine min_le_min ?_ le_rfl
  have hx2 : 0 < x2 := lt_of_lt_of_le hx1 h12
  have hu1 : 0 < steel.Es * x1 := mul_pos hEs hx1
  have hu2 : 0 < steel.Es * x2 := mul_pos hEs hx2
  have hu12 : steel.Es * x1 ≤ steel.Es * x2 := by nlinarith
  have ht1 : 0 < steel.Es * x1 / (steel.K * steel.fpy) := div_pos hu1 hkf
  have ht12 : steel.Es * x1 / (steel.K * steel.fpy)
      ≤ steel.Es * x2 / (steel.K * steel.fpy) :=
    (div_le_div_iff_of_pos_right hkf).mpr hu12
  have hg := powerCurve_mono steel.R hR ht1 ht12
  have key : ∀ x : ℝ, 0 < x →
      steel.Es * x * (steel.Q + (1 - steel.Q) /
        (1 + (steel.Es * x / (steel.K * steel.fpy)) ^ steel.R) ^ (1 / steel.R))
      = steel.Q * (steel.Es * x)
        + (1 - steel.Q) * ((steel.K * steel.fpy) *
          ((steel.Es * x / (steel.K * steel.fpy)) /
            (1 + (steel.Es * x / (steel.K * steel.fpy)) ^ steel.R) ^ (1 / steel.R))) := by
    intro x hx
    have hB := bracket_pos steel hkf (mul_pos hEs hx)
    field_simp
    ring
  rw [key x1 hx1, key x2 hx2]
  refine add_le_add (mul_le_mul_of_nonneg_left hu12 hQ0) ?_
  exact mul_le_mul_of_nonneg_left
    (mul_le_mul_of_nonneg_left hg hkf.le) (by linarith)

theorem powerFormulaStress_zero (steel : SteelType) :
    powerFormulaStress 0 steel = 0 := by
  unfold powerFormulaStress
  rw [if_pos (by norm_num)]

/-! ## C6 — the power formula is an odd function of strain -/

/-- C6: for every `SteelType` and every real `x`,
`powerFormulaStress (-x) steel = -(powerFormulaStress x steel)`, and
`powerFormulaStress 0 steel = 0` exactly. -/
theorem c6_powerFormulaStress_odd (steel : SteelType) (x : ℝ) :
    powerFormulaStress (-x) steel = -(powerFormulaStress x steel) ∧
    powerFormulaStress 0 steel = 0 := by
  refine ⟨?_, powerFormulaStress_zero steel⟩
  unfold powerFormulaStress
  rw [abs_neg]
  by_cases hg : |x| < 1e-12
  · rw [if_pos hg, if_pos hg]
    norm_num
  · rw [if_neg hg, if_neg hg]
    have hx0 : x ≠ 0 := by
      rintro rfl
      simp at hg
      norm_num at hg
    rcases lt_or_gt_of_ne hx0 with hx | hx
    · rw [if_pos (by linarith : -x ≥ 0), if_neg (by linarith : ¬ x ≥ 0)]
      exact (neg_neg _).symm
    · rw [if_neg (by linarith : ¬ -x ≥ 0), if_pos (by linarith : x ≥ 0)]

/-! ## C7 — φ-factor boundary values and linear transition -/

/-- C7: for every `epsilonTy` and every `epsilonT` strictly between
`epsilonTy` and `epsilonTy + 0.003`, the strength-reduction factor takes the
value 0.65 at `epsilonT = epsilonTy`, 0.90 at `epsilonT = epsilonTy + 0.003`,
and the linear interpolation `0.65 + 0.25*(epsilonT - epsilonTy)/0.003` in
between, so φ is continuous at both branch boundaries. -/
theorem c7_phiFactor_boundaries (epsilonTy epsilonT : ℝ)
    (hlo : epsilonTy < epsilonT) (hhi : epsilonT < epsilonTy + 0.003) :
    phiFactor epsilonTy epsilonTy = 0.65 ∧
    phiFactor (epsilonTy + 0.003) epsilonTy = 0.90 ∧
    phiFactor epsilonT epsilonTy = 0.65 + 0.25 * (epsilonT - epsilonTy) / 0.003 := by
  refine ⟨?_, ?_, ?_⟩
  · unfold phiFactor
    rw [if_neg (by norm_num), if_pos le_rfl]
  · unfold phiFactor
    rw [if_pos le_rfl]
  · unfold phiFactor
    rw [if_neg (by linarith), if_neg (by linarith)]

/-- C7 witness: the theorem applied at the Grade-60 yield strain
`epsilonTy = 0.00207` and the interior point `epsilonT = 0.003`. -/
theorem c7_phiFactor_boundaries_witness :
    (0.00207 : ℝ) < 0.003 ∧ (0.003 : ℝ) < 0.00207 + 0.003 ∧
    (phiFactor 0.00207 0.00207 = 0.65 ∧
     phiFactor (0.00207 + 0.003) 0.00207 = 0.90 ∧
     phiFactor 0.003 0.00207 = 0.65 + 0.25 * (0.003 - 0.00207) / 0.003) :=
  ⟨by norm_num, by norm_num,
    c7_phiFactor_boundaries 0.00207 0.003 (by norm_num) (by norm_num)⟩

/-! ## C1 — stress-cap bound -/

/-- Steel record for the C1 counterexample: it satisfies all four catalog
invariants named by the claim (`Es > 0`, `R > 0`, `0 ≤ Q < 1`,
`stressCap > 0`) but has `K * fpy < 0`, which those invariants do not
exclude. -/
def steelKneg : SteelType :=
  ⟨1, 1, 0.8, 0, 1, -1, 1⟩

/-- C1 counterexample: for the catalog-invariant-satisfying steel
`steelKneg` and strain 1 the source computes
`ratio = 1/(-0.8)`, `bracket = (1 - 1.25)^1 = -0.25`, `fs = 1/(-0.25) = -4`,
`min(-4, 1) = -4`, so the returned stress is `-4` and `|−4| ≤ stressCap = 1`
fails: the claim's invariant list does not constrain `K` or `fpy`. -/
theorem c1_cap_counterexample :
    0 < steelKneg.Es ∧ 0 < steelKneg.R ∧ 0 ≤ steelKneg.Q ∧ steelKneg.Q < 1 ∧
    0 < steelKneg.stressCap ∧
    ¬ (|powerFormulaStress 1 steelKneg| ≤ steelKneg.stressCap) := by
  have hval : powerFormulaStress 1 steelKneg = -4 := by
    norm_num [powerFormulaStress, powerFormulaMag, steelKneg, Real.rpow_one,
      min_def]
  refine ⟨by norm_num [steelKneg], by norm_num [steelKneg], by norm_num [steelKneg],
    by norm_num [steelKneg], by norm_num [steelKneg], ?_⟩
  rw [hval, abs_of_nonpos (by norm_num)]
  norm_num [steelKneg]

/-- C1 (amended): with the catalog invariants strengthened by `0 < K * fpy`
(true of every `steelPresets` entry), the magnitude of the power-formula
stress never exceeds `stressCap`. -/
theorem c1_powerFormulaStress_cap (steel : SteelType) (epsilonS : ℝ)
    (hEs : 0 < steel.Es) (hR : 0 < steel.R) (hQ0 : 0 ≤ steel.Q)
    (hQ1 : steel.Q < 1) (hcap : 0 < steel.stressCap)
    (hkf : 0 < steel.K * steel.fpy) :
    |powerFormulaStress epsilonS steel| ≤ steel.stressCap := by
  unfold powerFormulaStress
  by_cases hg : |epsilonS| < 1e-12
  · rw [if_pos hg]
    simpa using hcap.le
  · rw [if_neg hg]
    have hx : 0 < |epsilonS| := lt_of_lt_of_le (by norm_num) (not_lt.1 hg)
    have h0 := powerFormulaMag_nonneg steel hEs hQ0 hQ1 hcap.le hkf hx
    have h1 := powerFormulaMag_le_cap steel |epsilonS|
    by_cases hs : epsilonS ≥ 0
    · rw [if_pos hs, abs_of_nonneg h0]
      exact h1
    · rw [if_neg hs, abs_neg, abs_of_nonneg h0]
      exact h1

/-- C1 witness: the amended theorem applied to the Grade 60 catalog entry at
strain 0.001. -/
theorem c1_powerFormulaStress_cap_witness :
    (0 < steelGr60.Es ∧ 0 < steelGr60.R ∧ 0 ≤ steelGr60.Q ∧ steelGr60.Q < 1 ∧
     0 < steelGr60.stressCap ∧ 0 < steelGr60.K * steelGr60.fpy) ∧
    |powerFormulaStress 0.001 steelGr60| ≤ steelGr60.stressCap :=
  ⟨⟨by norm_num [steelGr60], by norm_num [steelGr60], by norm_num [steelGr60],
    by norm_num [steelGr60], by norm_num [steelGr60], by norm_num [steelGr60]⟩,
   c1_powerFormulaStress_cap steelGr60 0.001 (by norm_num [steelGr60])
     (by norm_num [steelGr60]) (by norm_num [steelGr60]) (by norm_num [steelGr60])
     (by norm_num [steelGr60]) (by norm_num [steelGr60])⟩

/-! ## C5 — monotonicity on non-negative strains -/

/-- Steel record for the C5 counterexample: it satisfies the claim's stated
hypotheses (`Es > 0`, `R > 0`, `0 ≤ Q < 1`) but has a negative `stressCap`,
which the claim's hypothesis list does not exclude. -/
def steelCapNeg : SteelType :=
  ⟨1, 1, 1, 0, 1, 1, -1⟩

/-- C5 counterexample: for `steelCapNeg` and the strains `x1 = 0 ≤ x2 = 1`,
the stress at 0 is 0 (epsilon guard) while the stress at 1 is
`min(0.5, -1) = -1`, so monotonicity fails under the claim's stated
hypotheses (which omit any constraint on `stressCap` and on `K * fpy`). -/
theorem c5_mono_counterexample :
    0 < steelCapNeg.Es ∧ 0 < steelCapNeg.R ∧ 0 ≤ steelCapNeg.Q ∧
    steelCapNeg.Q < 1 ∧ (0:ℝ) ≤ 0 ∧ (0:ℝ) ≤ 1 ∧
    ¬ (powerFormulaStress 0 steelCapNeg ≤ powerFormulaStress 1 steelCapNeg) := by
  have h0 : powerFormulaStress 0 steelCapNeg = 0 := powerFormulaStress_zero _
  have h1 : powerFormulaStress 1 steelCapNeg = -1 := by
    norm_num [powerFormulaStress, powerFormulaMag, steelCapNeg, Real.rpow_one,
      min_def]
  refine ⟨by norm_num [steelCapNeg], by norm_num [steelCapNeg],
    by norm_num [steelCapNeg], by norm_num [steelCapNeg], le_rfl, by norm_num, ?_⟩
  rw [h0, h1]
  norm_num

/-- C5 (amended): with the hypotheses strengthened by `0 < K * fpy` and
`0 ≤ stressCap` (both true of every `steelPresets` entry; each is forced —
see the C1 and C5 counterexamples), the power-formula stress is monotone
non-decreasing on non-negative strains. -/
theorem c5_powerFormulaStress_mono (steel : SteelType) (x1 x2 : ℝ)
    (hEs : 0 < steel.Es) (hR : 0 < steel.R) (hQ0 : 0 ≤ steel.Q)
    (hQ1 : steel.Q < 1) (hkf : 0 < steel.K * steel.fpy)
    (hcap : 0 ≤ steel.stressCap) (h1 : 0 ≤ x1) (h12 : x1 ≤ x2) :
    powerFormulaStress x1 steel ≤ powerFormulaStress x2 steel := by
  unfold powerFormulaStress
  rw [abs_of_nonneg h1, abs_of_nonneg (le_trans h1 h12)]
  by_cases g1 : x1 < 1e-12
  · rw [if_pos g1]
    by_cases g2 : x2 < 1e-12
    · rw [if_pos g2]
    · rw [if_neg g2, if_pos (by linarith : x2 ≥ 0)]
      exact powerFormulaMag_nonneg steel hEs hQ0 hQ1 hcap hkf
        (lt_of_lt_of_le (by norm_num) (not_lt.1 g2))
  · have hx1lo : (1e-12:ℝ) ≤ x1 := not_lt.1 g1
    have g2 : ¬ x2 < 1e-12 := not_lt.2 (le_trans hx1lo h12)
    rw [if_neg g1, if_neg g2, if_pos (by linarith : x1 ≥ 0),
      if_pos (by linarith : x2 ≥ 0)]
    exact powerFormulaMag_mono steel hEs hR hQ0 hQ1 hkf
      (lt_of_lt_of_le (by norm_num) hx1lo) h12

/-- C5 witness: the amended theorem applied to the Gr. 270 strand catalog
entry at strains `0.001 ≤ 0.002`. -/
theorem c5_powerFormulaStress_mono_witness :
    (0 < steelGr270.Es ∧ 0 < steelGr270.R ∧ 0 ≤ steelGr270.Q ∧
     steelGr270.Q < 1 ∧ 0 < steelGr270.K * steelGr270.fpy ∧
     0 ≤ steelGr270.stressCap ∧ (0:ℝ) ≤ 0.001 ∧ (0.001:ℝ) ≤ 0.002) ∧
    powerFormulaStress 0.001 steelGr270 ≤ powerFormulaStress 0.002 steelGr270 :=
  ⟨⟨by norm_num [steelGr270], by norm_num [steelGr270], by norm_num [steelGr270],
    by norm_num [steelGr270], by norm_num [steelGr270], by norm_num [steelGr270],
    by norm_num, by norm_num⟩,
   c5_powerFormulaStress_mono steelGr270 0.001 0.002 (by norm_num [steelGr270])
     (by norm_num [steelGr270]) (by norm_num [steelGr270]) (by norm_num [steelGr270])
     (by norm_num [steelGr270]) (by norm_num [steelGr270]) (by norm_num)
     (by norm_num)⟩

/-! ## C10 — shape of the generated stress-strain curve -/

/-- C10: for `Es > 0` and `numPoints ≥ 1` the curve has exactly
`numPoints + 1` points, the `i`-th point is
`((i/numPoints) * 3*fpu/Es, powerFormulaStress of that strain)`, the first
point is `(0, 0)` and the last strain is `3*fpu/Es`. -/
theorem c10_generateStressStrainCurve_shape (steel : SteelType) (numPoints : ℕ)
    (hEs : 0 < steel.Es) (hn : 1 ≤ numPoints) :
    (generateStressStrainCurve steel numPoints).length = numPoints + 1 ∧
    (∀ i : ℕ, i < numPoints + 1 →
      (generateStressStrainCurve steel numPoints)[i]? =
        some (((i : ℝ) / (numPoints : ℝ)) * (3 * steel.fpu / steel.Es),
          powerFormulaStress
            (((i : ℝ) / (numPoints : ℝ)) * (3 * steel.fpu / steel.Es)) steel)) ∧
    (generateStressStrainCurve steel numPoints)[0]? = some (0, 0) ∧
    (generateStressStrainCurve steel numPoints)[numPoints]? =
      some (3 * steel.fpu / steel.Es,
        powerFormulaStress (3 * steel.fpu / steel.Es) steel) := by
  have hmse : steel.fpu / steel.Es * 3 = 3 * steel.fpu / steel.Es := by ring
  have hpoint : ∀ i : ℕ, i < numPoints + 1 →
      (generateStressStrainCurve steel numPoints)[i]? =
        some (((i : ℝ) / (numPoints : ℝ)) * (3 * steel.fpu / steel.Es),
          powerFormulaStress
            (((i : ℝ) / (numPoints : ℝ)) * (3 * steel.fpu / steel.Es)) steel) := by
    intro i hi
    simp only [generateStressStrainCurve]
    rw [List.getElem?_map, List.getElem?_range hi, Option.map_some', hmse]
  refine ⟨?_, hpoint, ?_, ?_⟩
  · simp only [generateStressStrainCurve]
    rw [List.length_map, List.length_range]
  · have h0 := hpoint 0 (by omega)
    rw [h0]
    norm_num [powerFormulaStress_zero]
  · have hlast := hpoint numPoints (by omega)
    rw [hlast]
    have hnn : ((numPoints : ℝ) / (numPoints : ℝ)) = 1 :=
      div_self (Nat.cast_ne_zero.2 (by omega))
    rw [hnn, one_mul]

/-- C10 witness: the theorem applied to the Gr. 270 strand entry with
`numPoints = 2`. -/
theorem c10_generateStressStrainCurve_shape_witness :
    (0 < steelGr270.Es ∧ 1 ≤ 2) ∧
    (generateStressStrainCurve steelGr270 2).length = 2 + 1 ∧
    (generateStressStrainCurve steelGr270 2)[0]? = some (0, 0) :=
  ⟨⟨by norm_num [steelGr270], by norm_num⟩,
    (c10_generateStressStrainCurve_shape steelGr270 2 (by norm_num [steelGr270])
      (by norm_num)).1,
    (c10_generateStressStrainCurve_shape steelGr270 2 (by norm_num [steelGr270])
      (by norm_num)).2.2.1⟩

/-! ## The bisection loop: iteration bound, residual at exit, bracketing -/

theorem bisectLoop_bound (f : ℝ → ℝ) :
    ∀ (fuel : ℕ) (cLow cHigh c0 : ℝ),
      (bisectLoop f fuel cLow cHigh c0).iters ≤ fuel ∧
      (|f (bisectLoop f fuel cLow cHigh c0).c| < 1e-6 ∨
        (bisectLoop f fuel cLow cHigh c0).iters = fuel) := by
  intro fuel
  induction fuel with
  | zero =>
    intro cLow cHigh c0
    exact ⟨le_refl 0, Or.inr rfl⟩
  | succ n ih =>
    intro cLow cHigh c0
    simp only [bisectLoop]
    by_cases hb : |f ((cLow + cHigh) / 2)| < 1e-6
    · rw [if_pos hb]
      exact ⟨(by omega : 1 ≤ n + 1), Or.inl hb⟩
    · rw [if_neg hb]
      by_cases hr : f ((cLow + cHigh) / 2) > 0
      · rw [if_pos hr]
        obtain ⟨h1, h2⟩ := ih cLow ((cLow + cHigh) / 2) ((cLow + cHigh) / 2)
        refine ⟨by simpa using Nat.succ_le_succ h1, ?_⟩
        rcases h2 with h2 | h2
        · exact Or.inl h2
        · exact Or.inr (by simpa using congrArg Nat.succ h2)
      · rw [if_neg hr]
        obtain ⟨h1, h2⟩ := ih ((cLow + cHigh) / 2) cHigh ((cLow + cHigh) / 2)
        refine ⟨by simpa using Nat.succ_le_succ h1, ?_⟩
        rcases h2 with h2 | h2
        · exact Or.inl h2
        · exact Or.inr (by simpa using congrArg Nat.succ h2)

theorem bisectLoop_trials_mem (f : ℝ → ℝ) :
    ∀ (fuel : ℕ) (cLow cHigh c0 : ℝ), cLow < cHigh →
      ∀ t ∈ (bisectLoop f fuel cLow cHigh c0).trials, cLow < t ∧ t < cHigh := by
  intro fuel
  induction fuel with
  | zero =>
    intro cLow cHigh c0 _ t ht
    simp [bisectLoop] at ht
  | succ n ih =>
    intro cLow cHigh c0 hlh t ht
    have hmid1 : cLow < (cLow + cHigh) / 2 := by linarith
    have hmid2 : (cLow + cHigh) / 2 < cHigh := by linarith
    simp only [bisectLoop] at ht
    by_cases hb : |f ((cLow + cHigh) / 2)| < 1e-6
    · rw [if_pos hb] at ht
      simp at ht
      exact ht ▸ ⟨hmid1, hmid2⟩
    · rw [if_neg hb] at ht
      by_cases hr : f ((cLow + cHigh) / 2) > 0
      · rw [if_pos hr] at ht
        simp at ht
        rcases ht with rfl | ht
        · exact ⟨hmid1, hmid2⟩
        · obtain ⟨u1, u2⟩ := ih cLow ((cLow + cHigh) / 2) ((cLow + cHigh) / 2) hmid1 t ht
          exact ⟨u1, lt_trans u2 hmid2⟩
      · rw [if_neg hr] at ht
        simp at ht
        rcases ht with rfl | ht
        · exact ⟨hmid1, hmid2⟩
        · obtain ⟨u1, u2⟩ := ih ((cLow + cHigh) / 2) cHigh ((cLow + cHigh) / 2) hmid2 t ht
          exact ⟨lt_trans hmid1 u1, u2⟩

theorem bisectLoop_c_cases (f : ℝ → ℝ) :
    ∀ (fuel : ℕ) (cLow cHigh c0 : ℝ),
      (bisectLoop f fuel cLow cHigh c0).c = c0 ∨
      (bisectLoop f fuel cLow cHigh c0).c ∈ (bisectLoop f fuel cLow cHigh c0).trials := by
  intro fuel
  induction fuel with
  | zero =>
    intro cLow cHigh c0
    exact Or.inl rfl
  | succ n ih =>
    intro cLow cHigh c0
    simp only [bisectLoop]
    by_cases hb : |f ((cLow + cHigh) / 2)| < 1e-6
    · rw [if_pos hb]
      exact Or.inr (by simp)
    · rw [if_neg hb]
      by_cases hr : f ((cLow + cHigh) / 2) > 0
      · rw [if_pos hr]
        rcases ih cLow ((cLow + cHigh) / 2) ((cLow + cHigh) / 2) with h | h
        · exact Or.inr (by simp [h])
        · exact Or.inr (by simp [h])
      · rw [if_neg hr]
        rcases ih ((cLow + cHigh) / 2) cHigh ((cLow + cHigh) / 2) with h | h
        · exact Or.inr (by simp [h])
        · exact Or.inr (by simp [h])

theorem bisectLoop_c_mem_trials (f : ℝ → ℝ) (fuel : ℕ) (cLow cHigh c0 : ℝ)
    (hfuel : 1 ≤ fuel) :
    (bisectLoop f fuel cLow cHigh c0).c ∈ (bisectLoop f fuel cLow cHigh c0).trials := by
  obtain ⟨n, rfl⟩ : ∃ n, fuel = n + 1 := ⟨fuel - 1, by omega⟩
  simp only [bisectLoop]
  by_cases hb : |f ((cLow + cHigh) / 2)| < 1e-6
  · rw [if_pos hb]
    simp
  · rw [if_neg hb]
    by_cases hr : f ((cLow + cHigh) / 2) > 0
    · rw [if_pos hr]
      rcases bisectLoop_c_cases f n cLow ((cLow + cHigh) / 2) ((cLow + cHigh) / 2)
        with h | h
      · simp [h]
      · simp [h]
    · rw [if_neg hr]
      rcases bisectLoop_c_cases f n ((cLow + cHigh) / 2) cHigh ((cLow + cHigh) / 2)
        with h | h
      · simp [h]
      · simp [h]

theorem beta1_bounds (fc : ℝ) : 0 < beta1 fc ∧ beta1 fc ≤ 0.85 := by
  unfold beta1
  split_ifs with h1 h2
  · norm_num
  · norm_num
  · constructor <;> [linarith [not_le.1 h2]; linarith [not_le.1 h1]]

/-! ## C3 — the solver always stops within 500 iterations -/

/-- C3: for every section with `h > 0.01` and every steel-layer list, the
bisection loop executes at most 500 iterations, and at exit either the
force residual at the returned `c` is below `1e-6` kips or all 500
iterations were executed; the loop is a total function, so no error is
raised inside the solver. -/
theorem c3_bisection_bound (s : Section) (layers : List SteelLayer)
    (hh : 0.01 < s.h) :
    (solveC s layers).iters ≤ 500 ∧
    (|residualF s layers (solveC s layers).c| < 1e-6 ∨
      (solveC s layers).iters = 500) :=
  bisectLoop_bound (residualF s layers) 500 0.01 s.h (s.h / 2)

/-- C3 witness: the theorem applied to a 12×24 in, 6 ksi rectangular
section with no steel layers. -/
theorem c3_bisection_bound_witness :
    0.01 < (mkRectSection 12 24 6).h ∧
    ((solveC (mkRectSection 12 24 6) []).iters ≤ 500 ∧
     (|residualF (mkRectSection 12 24 6) []
        (solveC (mkRectSection 12 24 6) []).c| < 1e-6 ∨
      (solveC (mkRectSection 12 24 6) []).iters = 500)) :=
  ⟨by norm_num [mkRectSection],
   c3_bisection_bound (mkRectSection 12 24 6) [] (by norm_num [mkRectSection])⟩

/-! ## C9 — every trial `c` stays strictly inside `(0.01, h)` -/

/-- C9: for every section with `h > 0.01` and every steel-layer list, every
trial neutral-axis depth evaluated by the bisection, and the returned `c`,
lies strictly between 0.01 and `h`; hence `c` is never zero (so `depth / c`
in `steelStrain` never divides by zero) and the returned stress-block depth
`a = beta1 * c` is strictly less than `h`. -/
theorem c9_bisection_bracketing (s : Section) (layers : List SteelLayer)
    (hh : 0.01 < s.h) :
    (∀ t ∈ (solveC s layers).trials, 0.01 < t ∧ t < s.h ∧ t ≠ 0) ∧
    0.01 < (solveC s layers).c ∧ (solveC s layers).c < s.h ∧
    (solveC s layers).c ≠ 0 ∧
    beta1 s.fc * (solveC s layers).c < s.h := by
  simp only [solveC]
  have htr := bisectLoop_trials_mem (residualF s layers) 500 0.01 s.h (s.h / 2) hh
  have hcm := bisectLoop_c_mem_trials (residualF s layers) 500 0.01 s.h (s.h / 2)
    (by norm_num)
  have hc := htr _ hcm
  have hb := beta1_bounds s.fc
  refine ⟨fun t ht => ?_, hc.1, hc.2, by linarith [hc.1], ?_⟩
  · obtain ⟨u1, u2⟩ := htr t ht
    exact ⟨u1, u2, by linarith⟩
  · nlinarith [hc.1, hc.2, hb.1, hb.2]

/-- C9 witness: the theorem applied to a 10×20 in, 5 ksi rectangular
section with no steel layers. -/
theorem c9_bisection_bracketing_witness :
    0.01 < (mkRectSection 10 20 5).h ∧
    (0.01 < (solveC (mkRectSection 10 20 5) []).c ∧
     (solveC (mkRectSection 10 20 5) []).c < (mkRectSection 10 20 5).h) :=
  ⟨by norm_num [mkRectSection],
   ⟨(c9_bisection_bracketing (mkRectSection 10 20 5) []
      (by norm_num [mkRectSection])).2.1,
    (c9_bisection_bracketing (mkRectSection 10 20 5) []
      (by norm_num [mkRectSection])).2.2.1⟩⟩

/-! ## C8 — the cracking evaluator computes the documented formulas -/

theorem prestressSums_eq_sums :
    ∀ (layers : List SteelLayer) (p q : ℝ),
      layers.foldl
        (fun acc layer =>
          if layer.fse > 0 then
            (acc.1 + layer.fse * layer.area, acc.2 + layer.fse * layer.area * layer.depth)
          else acc)
        (p, q)
      = (p + (layers.map fun l => if l.fse > 0 then l.fse * l.area else 0).sum,
         q + (layers.map fun l => if l.fse > 0 then l.fse * l.area * l.depth else 0).sum)
  | [], p, q => by simp
  | l :: ls, p, q => by
    simp only [List.foldl_cons, List.map_cons, List.sum_cons]
    by_cases h : l.fse > 0
    · rw [if_pos h, if_pos h, if_pos h, prestressSums_eq_sums ls _ _]
      rw [Prod.mk.injEq]
      constructor <;> ring
    · rw [if_neg h, if_neg h, if_neg h, prestressSums_eq_sums ls p q]
      rw [Prod.mk.injEq]
      constructor <;> ring

theorem prestressSums_fst (layers : List SteelLayer) :
    (prestressSums layers).1
      = (layers.map fun l => if l.fse > 0 then l.fse * l.area else 0).sum := by
  unfold prestressSums
  rw [prestressSums_eq_sums layers 0 0]
  simp

theorem prestressSums_snd (layers : List SteelLayer) :
    (prestressSums layers).2
      = (layers.map fun l => if l.fse > 0 then l.fse * l.area * l.depth else 0).sum := by
  unfold prestressSums
  rw [prestressSums_eq_sums layers 0 0]
  simp

/-- C8: for every section with positive gross area and every steel-layer
list, the cracking evaluation returns `P = Σ fse·area` over exactly the
layers with `fse > 0`, the prestress centroid `yps = Σ(fse·area·depth)/P`
when `P > 0` and `yps = yCg` when not, eccentricity `e = yps − yCg`,
`Mcr = Sb·(fr + P/A + P·e/Sb)` with `fr = 7.5·sqrt(fc·1000)/1000`, and
`passesMinStrength` exactly when `phiMn ≥ 1.2·Mcr`. -/
theorem c8_prestressAndCracking_formulas (s : Section) (layers : List SteelLayer)
    (phiMn : ℝ) (hA : 0 < (grossSectionProperties s).A) :
    (prestressAndCracking s layers phiMn).P
      = (layers.map fun l => if l.fse > 0 then l.fse * l.area else 0).sum ∧
    (prestressAndCracking s layers phiMn).yps
      = (if (prestressAndCracking s layers phiMn).P > 0
         then (layers.map fun l => if l.fse > 0 then l.fse * l.area * l.depth else 0).sum
                / (prestressAndCracking s layers phiMn).P
         else (grossSectionProperties s).yCg) ∧
    (prestressAndCracking s layers phiMn).e
      = (prestressAndCracking s layers phiMn).yps - (grossSectionProperties s).yCg ∧
    (prestressAndCracking s layers phiMn).Mcr
      = (grossSectionProperties s).Sb *
          (7.5 * Real.sqrt (s.fc * 1000) / 1000
           + (prestressAndCracking s layers phiMn).P / (grossSectionProperties s).A
           + (prestressAndCracking s layers phiMn).P * (prestressAndCracking s layers phiMn).e
               / (grossSectionProperties s).Sb) ∧
    ((prestressAndCracking s layers phiMn).passesMinStrength ↔
      phiMn ≥ 1.2 * (prestressAndCracking s layers phiMn).Mcr) := by
  refine ⟨?_, ?_, rfl, rfl, Iff.rfl⟩
  · exact prestressSums_fst layers
  · show (if (prestressSums layers).1 > 0
        then (prestressSums layers).2 / (prestressSums layers).1
        else (grossSectionProperties s).yCg) = _
    rw [prestressSums_snd layers]
    rfl

/-- C8 witness: the theorem applied to a 12×24 in, 6 ksi rectangular
section with one Gr. 270 strand layer. -/
theorem c8_prestressAndCracking_formulas_witness :
    0 < (grossSectionProperties (mkRectSection 12 24 6)).A ∧
    (prestressAndCracking (mkRectSection 12 24 6)
        [⟨1.53, 20, 170, steelGr270⟩] 5000).P
      = (([⟨1.53, 20, 170, steelGr270⟩] : List SteelLayer).map
          fun l => if l.fse > 0 then l.fse * l.area else 0).sum :=
  ⟨by norm_num [grossSectionProperties, mkRectSection],
   (c8_prestressAndCracking_formulas (mkRectSection 12 24 6)
      [⟨1.53, 20, 170, steelGr270⟩] 5000
      (by norm_num [grossSectionProperties, mkRectSection])).1⟩

/-! ## C2 — degenerate hollow-core geometry -/

/-- A hollow-core section whose total void area (`4·π·5² = 100π`) exceeds
the gross rectangle area (`10·10 = 100`). -/
def hcDegenerate : Section :=
  mkHollowcoreSection 10 10 5 4 10 5

/-- C2 counterexample: for `hcDegenerate` the total void area is at least
the gross rectangle area, yet `grossSectionProperties` returns a strictly
negative gross area `A = 100 − 100π < 0`: the function has no
degenerate-geometry fallback (the guard lives in `compressionCentroid`
only), refuting the claim that it "does not return a negative area". -/
theorem c2_grossProps_counterexample :
    (hcDegenerate.numVoids : ℝ) * Real.pi * (hcDegenerate.voidDiameter / 2)
        * (hcDegenerate.voidDiameter / 2) ≥ hcDegenerate.bf * hcDegenerate.h ∧
    (grossSectionProperties hcDegenerate).A < 0 := by
  have hpi := Real.pi_gt_three
  constructor
  · simp only [hcDegenerate, mkHollowcoreSection]
    norm_num
    nlinarith
  · simp only [grossSectionProperties, hcDegenerate, mkHollowcoreSection]
    norm_num
    nlinarith

/-- C2 (amended): for a hollow-core section whose total void area is at
least `bf·h`, `grossSectionProperties` performs no fallback — its gross
area `A = bf·h − numVoids·π·r²` is `≤ 0` (negative when the void area
strictly exceeds `bf·h`, and `yCg` is computed by dividing by that
non-positive `A`); the documented degenerate-geometry guard lives in
`compressionCentroid`, which returns the gross centroid `a/2` whenever the
net compression area at depth `a` is `≤ 0`. -/
theorem c2_guard_location (s : Section) (a : ℝ)
    (htag : s.sectionType = SectionType.hollowcore)
    (hvoid : (s.numVoids : ℝ) * Real.pi * (s.voidDiameter / 2) * (s.voidDiameter / 2)
      ≥ s.bf * s.h)
    (hnet : s.bf * a - hcVoidArea s a ≤ 0) :
    (grossSectionProperties s).A ≤ 0 ∧
    compressionCentroid a s.bf s.bw s.hf s = a / 2 := by
  obtain ⟨tag, bf, bw, hf, h, fc, bt, ht, hg, bb, ns, sw, nv, vd, vcd⟩ := s
  simp only at htag
  subst htag
  constructor
  · simp only [grossSectionProperties]
    simp only at hvoid
    linarith
  · simp only [compressionCentroid]
    simp only at hnet
    rw [if_pos hnet]

/-- C2 witness: the amended theorem applied to `hcDegenerate` with
compression depth `a = 10`, where all four voids are fully inside the
stress block, so the net area is `100 − 100π ≤ 0`. -/
theorem c2_guard_location_witness :
    (hcDegenerate.sectionType = SectionType.hollowcore ∧
     (hcDegenerate.numVoids : ℝ) * Real.pi * (hcDegenerate.voidDiameter / 2)
        * (hcDegenerate.voidDiameter / 2) ≥ hcDegenerate.bf * hcDegenerate.h ∧
     hcDegenerate.bf * 10 - hcVoidArea hcDegenerate 10 ≤ 0) ∧
    ((grossSectionProperties hcDegenerate).A ≤ 0 ∧
     compressionCentroid 10 hcDegenerate.bf hcDegenerate.bw hcDegenerate.hf
        hcDegenerate = 10 / 2) := by
  have hpi := Real.pi_gt_three
  have h1 : hcDegenerate.sectionType = SectionType.hollowcore := rfl
  have h2 : (hcDegenerate.numVoids : ℝ) * Real.pi * (hcDegenerate.voidDiameter / 2)
      * (hcDegenerate.voidDiameter / 2) ≥ hcDegenerate.bf * hcDegenerate.h := by
    simp only [hcDegenerate, mkHollowcoreSection]
    norm_num
    nlinarith
  have h3 : hcDegenerate.bf * 10 - hcVoidArea hcDegenerate 10 ≤ 0 := by
    simp only [hcVoidArea, hcDegenerate, mkHollowcoreSection]
    rw [if_pos (by norm_num), if_neg (by norm_num), if_pos (by norm_num)]
    norm_num
    nlinarith
  exact ⟨⟨h1, h2, h3⟩, c2_guard_location hcDegenerate 10 h1 h2 h3⟩

/-! ## C4 — a degenerate T-beam analyses identically to a rectangle -/

theorem grossSectionProperties_tbeam_degenerate (b h fc : ℝ) (hb : 0 < b)
    (hh : 0 < h) :
    grossSectionProperties (mkTbeamSection b b h h fc)
      = grossSectionProperties (mkRectSection b h fc) := by
  simp only [grossSectionProperties, mkTbeamSection, mkRectSection]
  simp only [sub_self, mul_zero, zero_mul, add_zero, zero_add, zero_div]
  have hy : b * h * h / 2 / (b * h) = h / 2 := by
    field_simp
    ring
  rw [GrossProps.mk.injEq]
  refine ⟨rfl, hy, ?_, ?_, ?_⟩
  · rw [hy]
    ring
  · rw [hy]
  · rw [hy]
    ring

/-- All fields of an `AnalysisResult` except the echoed input `sec`. -/
def resultData (r : AnalysisResult) :
    ℝ × ℝ × ℝ × ℝ × ℝ × List LayerResult × ℝ × ℝ × ℝ × ℝ × ℝ × ℝ × ℝ × ℝ ×
      Prop × Prop × CrackingResult :=
  (r.c, r.a, r.beta1, r.Cc, r.ccCentroid, r.layerResults, r.Mn, r.MnFt, r.phi,
   r.phiMn, r.phiMnFt, r.epsilonT, r.cOverD, r.fc, r.ductile, r.transition,
   r.cracking)

/-- C4: for every width `b > 0`, depth `h > 0`, concrete strength `fc` and
steel-layer list, analysing a T-beam with `bf = bw = b` and `hf = h`
produces the same `Cc`, the same `ccCentroid`, and the same value of every
field of the `AnalysisResult` other than the echoed input section —
including the gross section properties and the cracking results — as
analysing the rectangular section with the same `bw = b`, `h`, `fc`. -/
theorem c4_tbeam_reduces_to_rectangular (b h fc : ℝ) (layers : List SteelLayer)
    (hb : 0 < b) (hh : 0 < h) :
    resultData (analyzeBeam (mkTbeamSection b b h h fc) layers)
      = resultData (analyzeBeam (mkRectSection b h fc) layers) := by
  have hgross := grossSectionProperties_tbeam_degenerate b h fc hb hh
  have hres : residualF (mkTbeamSection b b h h fc) layers
      = residualF (mkRectSection b h fc) layers := rfl
  have hsolve : solveC (mkTbeamSection b b h h fc) layers
      = solveC (mkRectSection b h fc) layers := by
    simp only [solveC]
    rw [hres]
    rfl
  have hcrack : ∀ X : ℝ,
      prestressAndCracking (mkTbeamSection b b h h fc) layers X
        = prestressAndCracking (mkRectSection b h fc) layers X := by
    intro X
    simp only [prestressAndCracking]
    rw [hgross]
    rfl
  simp only [resultData, analyzeBeam]
  rw [hsolve, hcrack]
  rfl

/-- C4 witness: the theorem applied at `b = 12`, `h = 24`, `fc = 6` with no
steel layers. -/
theorem c4_tbeam_reduces_to_rectangular_witness :
    ((0:ℝ) < 12 ∧ (0:ℝ) < 24) ∧
    resultData (analyzeBeam (mkTbeamSection 12 12 24 24 6) [])
      = resultData (analyzeBeam (mkRectSection 12 24 6) []) :=
  ⟨⟨by norm_num, by norm_num⟩,
   c4_tbeam_reduces_to_rectangular 12 24 6 [] (by norm_num) (by norm_num)⟩

end

end BeamCalc
